import Mathlib

/-!
A shallow embedding, in Lean 4, of the three request handlers of the
introspect backend (`src/endpoints/analysis.ts` and the route wrappers in
`src/index.ts`), together with theorems settling the specification claims.

Modelling conventions:
* JavaScript strings are modelled as `List Char` (abbreviated `Str`);
  the handful of string operations the code uses (`toLowerCase`, `trim`,
  `split(...)[0]`, `includes`) are embedded as character-list functions.
* JavaScript numbers that the claims depend on are modelled as exact
  rationals `ℚ` (the code performs only comparisons, sums, division and
  one-decimal rendering on values that are exact in the claims).
* A JSON request body is modelled by `JsonBody`: either an array of typed
  items or some non-array value (`other`).
* Upstream network services (the generation model, the speech service)
  are nondeterministic; they are modelled by oracle parameters giving the
  outcome of the i-th upstream call of the request.  Each handler also
  returns the sequence (or count) of upstream calls it performed, so that
  "no upstream call is made" claims are statable.
* A JavaScript `throw` that escapes a handler is modelled by
  `Except.error`; the per-route `try/catch` wrappers of `src/index.ts`
  turn it into a 500 `{error}` response.
-/

/-- JavaScript strings, modelled as lists of characters. -/
abbrev Str := List Char

instance {ε α : Type} [DecidableEq ε] [DecidableEq α] :
    DecidableEq (Except ε α) := fun x y =>
  match x, y with
  | .ok a, .ok b =>
    if h : a = b then .isTrue (by rw [h]) else .isFalse (by simp [h])
  | .error a, .error b =>
    if h : a = b then .isTrue (by rw [h]) else .isFalse (by simp [h])
  | .ok _, .error _ => .isFalse (by simp)
  | .error _, .ok _ => .isFalse (by simp)

/-- The characters matched by `\s` in the regexes used by the code
(ASCII whitespace; the code never receives the exotic Unicode spaces). -/
def isJsSpace (c : Char) : Bool :=
  c = ' ' || c = '\t' || c = '\n' || c = '\r' || c = '\x0b' || c = '\x0c'

/-- A character matched by the separator regex `[.,\s]` of
the first-token split of `extractExpression`. -/
def isSepChar (c : Char) : Bool :=
  c = '.' || c = ',' || isJsSpace c

/-- JavaScript `String.prototype.toLowerCase` on the character list. -/
def toLowerCaseL (s : Str) : Str := s.map Char.toLower

/-- JavaScript `String.prototype.trim`: drop leading and trailing whitespace. -/
def trimL (s : Str) : Str :=
  ((s.dropWhile isJsSpace).reverse.dropWhile isJsSpace).reverse

/-- JavaScript `a.includes(b)`: `b` occurs as a contiguous substring of `a`. -/
def strContains (s sub : Str) : Bool :=
  s.tails.any (fun t => sub.isPrefixOf t)

/-- The emotion keyword list of `extractExpression`
(`src/endpoints/analysis.ts`, lines 184-189).  Note it has 22 entries:
the 16 words of the generation prompt plus
`surprise, disappointed, scared, afraid, cheerful, joyful`. -/
def emotionKeywords : List Str :=
  ["happy".data, "sad".data, "angry".data, "anxious".data, "worried".data,
   "confused".data, "neutral".data, "calm".data, "stressed".data,
   "surprised".data, "surprise".data, "fearful".data, "disgusted".data,
   "content".data, "frustrated".data, "concerned".data, "excited".data,
   "disappointed".data, "scared".data, "afraid".data, "cheerful".data,
   "joyful".data]

/-- The fixed 16-word vocabulary that `buildVisionPrompt` instructs the
generation model to use (`src/endpoints/analysis.ts`, lines 226 and 241). -/
def promptVocab16 : List Str :=
  ["happy".data, "sad".data, "angry".data, "anxious".data, "worried".data,
   "confused".data, "neutral".data, "calm".data, "stressed".data,
   "surprised".data, "fearful".data, "disgusted".data, "content".data,
   "frustrated".data, "concerned".data, "excited".data]

/-- The fallback label of `extractExpression`. -/
def neutralStr : Str := "neutral".data

/-- Embedding of `extractExpression` (`src/endpoints/analysis.ts`, lines 182-216):
lowercase and trim the text, then
(1) if the first token (up to the first `.`, `,` or whitespace) is a
keyword, return it; (2) else return the first keyword, in list order,
occurring in the first sentence (text up to the first `.`);
(3) else the first keyword occurring anywhere; (4) else `"neutral"`. -/
def extractExpression (analysisText : Str) : Str :=
  let lowerText := trimL (toLowerCaseL analysisText)
  let firstWord := lowerText.takeWhile (fun c => !(isSepChar c))
  if emotionKeywords.contains firstWord then firstWord
  else
    let firstSentence := lowerText.takeWhile (fun c => c != '.')
    match emotionKeywords.find? (fun e => strContains firstSentence e) with
    | some e => e
    | none =>
      match emotionKeywords.find? (fun e => strContains lowerText e) with
      | some e => e
      | none => neutralStr

/-- Decimal rendering of a natural number, as JavaScript would produce it. -/
def natToStr (n : ℕ) : Str := (Nat.repr n).data

/-- A biometric sample object of the `/analyze` and `/summary` bodies.
Fields are optional: absent fields read as `undefined` in JavaScript and
the code defaults them (`|| 0`, `|| ""`, the "N/A" line fallback).  `Option ℚ` with
`getD 0` models `x || 0` exactly on numeric-or-absent values (the value
`0` is falsy in JavaScript and `0 || 0 = 0`). -/
structure Metric where
  Pulse : Option ℚ := none
  Breath : Option ℚ := none
  Time : Option ℚ := none
  Image : Str := []
deriving DecidableEq

/-- A JSON element of a request array, as JavaScript property access sees
it: a real object, a non-null primitive (property access yields
`undefined`), or `null`/`undefined` (property access throws). -/
inductive JsElem (α : Type)
  | obj (a : α)
  | prim
  | nullish
deriving DecidableEq

/-- A parsed JSON request body: an array of items, or any non-array value
(`Array.isArray` returns false on it). -/
inductive JsonBody (α : Type)
  | array (items : List α)
  | other
deriving DecidableEq

/-- Outcome of the raw `fetch` to the generation model inside
`analyzeWithGemini`: a success with the extracted candidate text, a
non-ok HTTP response, an ok response lacking the expected text field, or
a thrown network error. -/
inductive GeminiFetch
  | ok (text : Str)
  | httpErr (status : ℕ) (statusText : Str)
  | badShape
  | threw (msg : Str)
deriving DecidableEq

/-- The message `Gemini API error: ${status} ${statusText}`. -/
def geminiApiErrMsg (status : ℕ) (statusText : Str) : Str :=
  ("Gemini API error: ").data ++ natToStr status ++ ' ' :: statusText

/-- The message thrown/returned on a well-formed 200 response lacking
`candidates[0].content.parts[0].text`. -/
def invalidGeminiMsg : Str := ("Invalid response from Gemini API").data

/-- JavaScript `fullText.split('.')` (full split on a single character). -/
def splitOnDot : Str → List Str
  | [] => [[]]
  | c :: rest =>
    let r := splitOnDot rest
    if c = '.' then [] :: r
    else
      match r with
      | s :: ss => (c :: s) :: ss
      | [] => [[c]]

/-- JavaScript `parts.join('.')`. -/
def joinDots : List Str → Str
  | [] => []
  | [s] => s
  | s :: ss => s ++ '.' :: joinDots ss

/-- Result value of `analyzeWithGemini`: `{success:true, analysis,
expression}` or `{success:false, error}` (the `details` field is dropped
by the caller and elided). -/
inductive GemOutcome
  | ok (analysis expression : Str)
  | err (error : Str)
deriving DecidableEq

/-- Embedding of `analyzeWithGemini` (`src/endpoints/analysis.ts`, lines 85-180), with
the network `fetch` abstracted by its outcome.  On success the candidate
text is trimmed, the expression label is extracted by
`extractExpression`, and the text before the first period is stripped
from the returned analysis.  Every thrown error is caught and turned
into a failure value, so this function never throws. -/
def analyzeWithGemini (fetchResult : GeminiFetch) : GemOutcome :=
  match fetchResult with
  | .httpErr status statusText => .err (geminiApiErrMsg status statusText)
  | .badShape => .err invalidGeminiMsg
  | .threw msg => .err msg
  | .ok text =>
    let fullText := trimL text
    let expression := extractExpression fullText
    let parts := splitOnDot fullText
    let analysisText :=
      if parts.length > 1 then trimL (joinDots parts.tail) else fullText
    .ok analysisText expression

/-- One element of the `results` array assembled by `handleAnalyze`:
either `{error, timestamp, metrics:{heartRate, breathRate}}` or
`{analysis, expression, timestamp, metrics:{heartRate, breathRate}}`. -/
inductive AnalysisEntry
  | failure (error : Str) (timestamp heartRate breathRate : ℚ)
  | success (analysis expression : Str) (timestamp heartRate breathRate : ℚ)
deriving DecidableEq

/-- The `timestamp` field of a result entry (present in both shapes). -/
def AnalysisEntry.timestamp : AnalysisEntry → ℚ
  | .failure _ ts _ _ => ts
  | .success _ _ ts _ _ => ts

/-- The message of the `TypeError` thrown by property access on `null`. -/
def typeErrorNullMsg : Str :=
  ("Cannot read properties of null").data

/-- Reading `Pulse`, `Breath`, `Time` (with their `|| 0` defaults) off an
array element: objects give their fields, primitives give all defaults,
`null` throws. -/
def elemFields : JsElem Metric → Option (ℚ × ℚ × ℚ)
  | .obj m => some (m.Pulse.getD 0, m.Breath.getD 0, m.Time.getD 0)
  | .prim => some (0, 0, 0)
  | .nullish => none

/-- The body of the `for` loop of `handleAnalyze` (`src/endpoints/analysis.ts`,
lines 24-63), indexed from `i`; returns the accumulated entries (or the
thrown error) together with the number of upstream calls made. -/
def processAnalyze (gem : ℕ → GeminiFetch) :
    ℕ → List (JsElem Metric) → Except Str (List AnalysisEntry) × ℕ
  | _, [] => (.ok [], 0)
  | i, e :: rest =>
    match elemFields e with
    | none => (.error typeErrorNullMsg, 0)
    | some (heartRate, breathRate, timestamp) =>
      let entry :=
        match analyzeWithGemini (gem i) with
        | .err msg => AnalysisEntry.failure msg timestamp heartRate breathRate
        | .ok a ex => AnalysisEntry.success a ex timestamp heartRate breathRate
      let r := processAnalyze gem (i + 1) rest
      (match r.1 with
       | .ok l => .ok (entry :: l)
       | .error msg => .error msg, r.2 + 1)

/-- Response of `handleAnalyze`: 400 on bad format, 500 from the catch
block, or 200 with `{results, totalProcessed}`. -/
inductive AnalyzeResponse
  | badRequest (error : Str)
  | serverError (error : Str)
  | results (results : List AnalysisEntry) (totalProcessed : ℕ)
deriving DecidableEq

/-- The 400 message of `handleAnalyze`. -/
def invalidFormatMsg : Str := ("Invalid format: expected array of metrics").data

/-- Embedding of `handleAnalyze` (`src/endpoints/analysis.ts`, lines 1-83): reject a
non-array or empty body with a 400, otherwise process every element in
order, catching any thrown error as a 500.  Also returns the number of
upstream calls made. -/
def handleAnalyze (gem : ℕ → GeminiFetch) (body : JsonBody (JsElem Metric)) :
    AnalyzeResponse × ℕ :=
  match body with
  | .other => (.badRequest invalidFormatMsg, 0)
  | .array [] => (.badRequest invalidFormatMsg, 0)
  | .array (e :: es) =>
    match processAnalyze gem 0 (e :: es) with
    | (.ok entries, c) => (.results entries (e :: es).length, c)
    | (.error msg, c) => (.serverError msg, c)

/-- The base64 alphabet used by `btoa`. -/
def b64Alphabet : Str :=
  ("ABCDEFGHIJKLMNOPQRSTUVWXYZabcdefghijklmnopqrstuvwxyz0123456789+/").data

/-- The digit character for a sextet value. -/
def b64Char (n : ℕ) : Char := b64Alphabet.getD n 'A'

/-- Position of a character in the base64 alphabet. -/
def b64IndexAux (c : Char) : ℕ → Str → Option ℕ
  | _, [] => none
  | i, d :: ds => if d = c then some i else b64IndexAux c (i + 1) ds

/-- Value of a base64 digit character, if it is one. -/
def b64Index (c : Char) : Option ℕ := b64IndexAux c 0 b64Alphabet

/-- JavaScript `btoa` on a binary string given by its character codes: standard
base64, three bytes per four digits, `=`-padded. -/
def btoa : List ℕ → Str
  | [] => []
  | [a] => [b64Char (a / 4), b64Char (a % 4 * 16), '=', '=']
  | [a, b] => [b64Char (a / 4), b64Char (a % 4 * 16 + b / 16),
               b64Char (b % 16 * 4), '=']
  | a :: b :: c :: rest =>
    b64Char (a / 4) :: b64Char (a % 4 * 16 + b / 16) ::
    b64Char (b % 16 * 4 + c / 64) :: b64Char (c % 64) :: btoa rest

/-- Embedding of `arrayBufferToBase64` (`src/endpoints/analysis.ts`, lines 406-413):
the loop builds a binary string whose i-th character code is the i-th
byte of the buffer, then applies `btoa`; so on the byte list it is
exactly `btoa`. -/
def arrayBufferToBase64 (buffer : List ℕ) : Str := btoa buffer

/-- Standard base64 decoding (`atob` followed by reading char codes):
four digits per three bytes, accepting `=`-padding only at the end.
Returns `none` on invalid input. -/
def atobBytes : Str → Option (List ℕ)
  | [] => some []
  | c1 :: c2 :: c3 :: c4 :: rest =>
    match b64Index c1, b64Index c2 with
    | some i1, some i2 =>
      if c3 = '=' then
        if c4 = '=' ∧ rest = [] then some [i1 * 4 + i2 / 16] else none
      else
        match b64Index c3 with
        | some i3 =>
          if c4 = '=' then
            if rest = [] then some [i1 * 4 + i2 / 16, i2 % 16 * 16 + i3 / 4]
            else none
          else
            match b64Index c4 with
            | some i4 =>
              match atobBytes rest with
              | some bs =>
                some ((i1 * 4 + i2 / 16) :: (i2 % 16 * 16 + i3 / 4) ::
                      (i3 % 4 * 64 + i4) :: bs)
              | none => none
            | none => none
        | none => none
    | _, _ => none
  | _ => none

/-- Base64 digits decode back to their sextet value. -/
theorem b64Index_b64Char : ∀ n, n < 64 → b64Index (b64Char n) = some n := by
  decide

/-- Base64 digits are never the padding character. -/
theorem b64Char_ne_pad : ∀ n, n < 64 → b64Char n ≠ '=' := by
  decide

/-- Decoding is a left inverse of `btoa` on byte lists. -/
theorem atobBytes_btoa :
    ∀ (bs : List ℕ), (∀ b ∈ bs, b < 256) → atobBytes (btoa bs) = some bs
  | [], _ => rfl
  | [a], h => by
    have ha : a < 256 := h a (by simp)
    have h1 : a / 4 < 64 := by omega
    have h2 : a % 4 * 16 < 64 := by omega
    simp [btoa, atobBytes, b64Index_b64Char _ h1, b64Index_b64Char _ h2,
          b64Char_ne_pad _ h1, b64Char_ne_pad _ h2]
    omega
  | [a, b], h => by
    have ha : a < 256 := h a (by simp)
    have hb : b < 256 := h b (by simp)
    have h1 : a / 4 < 64 := by omega
    have h2 : a % 4 * 16 + b / 16 < 64 := by omega
    have h3 : b % 16 * 4 < 64 := by omega
    simp [btoa, atobBytes, b64Index_b64Char _ h1, b64Index_b64Char _ h2,
          b64Index_b64Char _ h3, b64Char_ne_pad _ h1, b64Char_ne_pad _ h2,
          b64Char_ne_pad _ h3]
    omega
  | a :: b :: c :: rest, h => by
    have ha : a < 256 := h a (by simp)
    have hb : b < 256 := h b (by simp)
    have hc : c < 256 := h c (by simp)
    have hrest : ∀ x ∈ rest, x < 256 := fun x hx => h x (by simp [hx])
    have h1 : a / 4 < 64 := by omega
    have h2 : a % 4 * 16 + b / 16 < 64 := by omega
    have h3 : b % 16 * 4 + c / 64 < 64 := by omega
    have h4 : c % 64 < 64 := by omega
    have ih := atobBytes_btoa rest hrest
    simp [btoa, atobBytes, b64Index_b64Char _ h1, b64Index_b64Char _ h2,
          b64Index_b64Char _ h3, b64Index_b64Char _ h4,
          b64Char_ne_pad _ h1, b64Char_ne_pad _ h2,
          b64Char_ne_pad _ h3, b64Char_ne_pad _ h4, ih]
    omega

/-- One item of a `/tts` request: `{text, voice?, timestamp?}` with the
usual JavaScript falsiness on the defaults. -/
structure TTSItem where
  text : Option Str := none
  voice : Option Str := none
  timestamp : Option ℚ := none
deriving DecidableEq

/-- JavaScript `!x` on an optional string: absent or empty is falsy. -/
def falsyText : Option Str → Bool
  | none => true
  | some s => s.isEmpty

/-- The fixed default voice id. -/
def defaultVoiceId : Str := ("pNInz6obpgDQGcFmaJgB").data

/-- JavaScript `item.voice || default`. -/
def voiceOrDefault : Option Str → Str
  | none => defaultVoiceId
  | some s => if s.isEmpty then defaultVoiceId else s

/-- Outcome of one `fetch` to the speech service: audio bytes on
success, a non-ok HTTP response, or a thrown network error. -/
inductive TTSUpstream
  | ok (audio : List ℕ)
  | httpErr (statusText bodyText : Str)
  | threw (msg : Str)
deriving DecidableEq

/-- Single mode: `ElevenLabs API error: ${statusText} - ${errorText}`. -/
def elevenLabsErrMsg (statusText bodyText : Str) : Str :=
  ("ElevenLabs API error: ").data ++ statusText ++ (" - ").data ++ bodyText

/-- Batch mode: `ElevenLabs API error: ${statusText}`. -/
def elevenLabsBatchErrMsg (statusText : Str) : Str :=
  ("ElevenLabs API error: ").data ++ statusText

/-- The message of the 400 on a missing/empty text. -/
def txtRequiredMsg : Str := ("Text is required").data

/-- The audio content type constant. -/
def audioMpeg : Str := ("audio/mpeg").data

/-- One element of the batch `results` array: an object with the subset
of the fields `audio`, `error`, `details`, `timestamp`, `contentType`
that the pushing branch sets. -/
structure BatchEntry where
  audio : Option Str := none
  error : Option Str := none
  details : Option Str := none
  timestamp : ℚ := 0
  contentType : Option Str := none
deriving DecidableEq

/-- The entry pushed for a non-skipped batch item, by upstream outcome
(`src/endpoints/analysis.ts`, lines 345-394). -/
def batchEntryFor (up : TTSUpstream) (timestamp : ℚ) : BatchEntry :=
  match up with
  | .ok audio =>
    { audio := some (arrayBufferToBase64 audio), timestamp := timestamp,
      contentType := some audioMpeg }
  | .httpErr st bodyText =>
    { error := some (elevenLabsBatchErrMsg st), details := some bodyText,
      timestamp := timestamp }
  | .threw msg => { error := some msg, timestamp := timestamp }

/-- The body of the `for` loop of `handleBatchTTS`
(`src/endpoints/analysis.ts`, lines 329-395), indexed from `i`; returns
the accumulated entries and the indices for which a network call was
made.  An item with falsy `text` is recorded as an error entry and
skipped before any network interaction. -/
def processBatch (up : ℕ → TTSUpstream) :
    ℕ → List TTSItem → List BatchEntry × List ℕ
  | _, [] => ([], [])
  | i, item :: rest =>
    let timestamp := item.timestamp.getD 0
    if falsyText item.text then
      let r := processBatch up (i + 1) rest
      ({ error := some txtRequiredMsg, timestamp := timestamp } :: r.1, r.2)
    else
      let r := processBatch up (i + 1) rest
      (batchEntryFor (up i) timestamp :: r.1, i :: r.2)

/-- Response of `handleTTS`: a 400, raw audio (single success), or the
JSON `{results, totalProcessed}` of batch mode. -/
inductive TTSResponse
  | badRequest (error : Str)
  | audio (bytes : List ℕ)
  | batch (results : List BatchEntry) (totalProcessed : ℕ)
deriving DecidableEq

/-- The 400 message of an empty batch. -/
def noTextsMsg : Str := ("No texts provided").data

/-- Embedding of `handleBatchTTS` (`src/endpoints/analysis.ts`, lines 315-403); it
never throws.  Also returns the indices of the performed upstream
calls. -/
def handleBatchTTS (up : ℕ → TTSUpstream) (texts : List TTSItem) :
    TTSResponse × List ℕ :=
  if texts.length = 0 then (.badRequest noTextsMsg, [])
  else
    let r := processBatch up 0 texts
    (.batch r.1 texts.length, r.2)

/-- Embedding of `handleSingleTTS` (`src/endpoints/analysis.ts`, lines 267-313): a
falsy text gives a 400 with no upstream call; a non-ok upstream response
throws `ElevenLabs API error: ...` (modelled by `Except.error`); success
returns the raw audio. -/
def handleSingleTTS (up : TTSUpstream) (body : TTSItem) :
    Except Str TTSResponse × List ℕ :=
  if falsyText body.text then (.ok (.badRequest txtRequiredMsg), [])
  else
    match up with
    | .ok audio => (.ok (.audio audio), [0])
    | .httpErr st bodyText => (.error (elevenLabsErrMsg st bodyText), [0])
    | .threw msg => (.error msg, [0])

/-- Body of a `/tts` request: an array (batch mode) or a single object. -/
inductive TTSBody
  | array (items : List TTSItem)
  | single (item : TTSItem)
deriving DecidableEq

/-- Embedding of `handleTTS` (`src/endpoints/analysis.ts`, lines 254-265): dispatch on
`Array.isArray(body)`. -/
def handleTTS (up : ℕ → TTSUpstream) (body : TTSBody) :
    Except Str TTSResponse × List ℕ :=
  match body with
  | .array items =>
    let r := handleBatchTTS up items
    (.ok r.1, r.2)
  | .single item => handleSingleTTS (up 0) item

/-- A route-level response: the handler response, or the 500 `{error}`
produced by the per-route `catch` block in `src/index.ts`. -/
inductive RouteResponse (α : Type)
  | ok (response : α)
  | serverError (error : Str)
deriving DecidableEq

/-- The `/tts` route (`src/index.ts`, lines 31-39): forward the handler
response, catching a thrown error as a 500 `{error}`. -/
def appPostTTS (up : ℕ → TTSUpstream) (body : TTSBody) :
    RouteResponse TTSResponse × List ℕ :=
  match handleTTS up body with
  | (.ok r, cs) => (.ok r, cs)
  | (.error msg, cs) => (.serverError msg, cs)

/-- Outcome of the single fetch to the generation model in
`handleSummary`. -/
inductive SummaryUpstream
  | ok (text : Str)
  | httpErr (statusText bodyText : Str)
  | badShape
  | threw (msg : Str)
deriving DecidableEq

/-- The message `Gemini API error: ${statusText} - ${errorText}` (summary mode). -/
def summaryGeminiErrMsg (statusText bodyText : Str) : Str :=
  ("Gemini API error: ").data ++ statusText ++ (" - ").data ++ bodyText

/-- The message of the `TypeError` thrown by `undefined.toFixed(0)` when
the last sample has no `Time` field. -/
def typeErrorUndefinedMsg : Str :=
  ("Cannot read properties of undefined").data

/-- JavaScript `x.toFixed(1)` for the nonnegative values the code renders: round to
one decimal (half up) and render with exactly one digit after the
point. -/
def toFixed1 (q : ℚ) : Str :=
  let n : ℕ := (⌊q * 10 + 1 / 2⌋).toNat
  natToStr (n / 10) ++ '.' :: natToStr (n % 10)

/-- JavaScript `Math.max(a, ...l)`. -/
def jsMax (a : ℚ) (l : List ℚ) : ℚ := l.foldl max a

/-- JavaScript `Math.min(a, ...l)`. -/
def jsMin (a : ℚ) (l : List ℚ) : ℚ := l.foldl min a

/-- The element `body[body.length - 1]` of a non-empty array. -/
def lastOf (m : Metric) (ms : List Metric) : Metric :=
  ms.foldl (fun _ x => x) m

/-- The fixed placeholder summary. -/
def placeholderSummary : Str :=
  ("No data was collected during this session.").data

/-- Response of `handleSummary`: the placeholder `{summary}`, or the full
`{summary, eventCount, duration, statistics}` object. -/
inductive SummaryResponse
  | summaryOnly (summary : Str)
  | full (summary : Str) (eventCount : ℕ) (duration : ℚ)
         (avgHeartRate : Str) (maxHeartRate minHeartRate : ℚ)
deriving DecidableEq

/-- Embedding of `handleSummary` (`src/endpoints/analysis.ts`, lines 415-500).  A
non-array or empty body gives the placeholder with no upstream call.
Otherwise: the per-line `eventsSummary` block is built (it cannot throw,
thanks to optional chaining, and feeds only the prompt text, which the
upstream oracle abstracts, so it is elided here); the statistics are
computed with missing pulses as 0; then the prompt interpolates
`body[body.length - 1].Time.toFixed(0)`, which throws before the fetch
when the last sample has no `Time`; then the single upstream call is
made, any failure being thrown as a whole-request error. -/
def handleSummary (up : SummaryUpstream) (body : JsonBody Metric) :
    Except Str SummaryResponse × Bool :=
  match body with
  | .other => (.ok (.summaryOnly placeholderSummary), false)
  | .array [] => (.ok (.summaryOnly placeholderSummary), false)
  | .array (m :: ms) =>
    let pulses := (m :: ms).map (fun x => x.Pulse.getD 0)
    let avgHeartRate : ℚ := pulses.sum / ((m :: ms).length : ℚ)
    let maxHeartRate : ℚ := jsMax (m.Pulse.getD 0) (ms.map (fun x => x.Pulse.getD 0))
    let minHeartRate : ℚ := jsMin (m.Pulse.getD 0) (ms.map (fun x => x.Pulse.getD 0))
    match (lastOf m ms).Time with
    | none => (.error typeErrorUndefinedMsg, false)
    | some tLast =>
      match up with
      | .httpErr st bodyText => (.error (summaryGeminiErrMsg st bodyText), true)
      | .badShape => (.error invalidGeminiMsg, true)
      | .threw msg => (.error msg, true)
      | .ok text =>
        (.ok (.full text (m :: ms).length tLast (toFixed1 avgHeartRate)
                maxHeartRate minHeartRate), true)

/-- The `/summary` route (`src/index.ts`, lines 41-49): forward the
handler response, catching a thrown error as a 500 `{error}`. -/
def appPostSummary (up : SummaryUpstream) (body : JsonBody Metric) :
    RouteResponse SummaryResponse × Bool :=
  match handleSummary up body with
  | (.ok r, c) => (.ok r, c)
  | (.error msg, c) => (.serverError msg, c)

/-- Placeholder entry for positional statements via `List.getD`. -/
def dfltEntry : AnalysisEntry := .failure [] 0 0 0

/-- Placeholder metric for positional statements via `List.getD`. -/
def dfltMetric : Metric := {}

/-- Placeholder batch entry for positional statements via `List.getD`. -/
def dfltBatchEntry : BatchEntry := {}

/-- Placeholder speech item for positional statements via `List.getD`. -/
def dfltTTSItem : TTSItem := {}

/-- Concrete three-item batch whose middle item misses its text. -/
def sampleBatchItems : List TTSItem :=
  [{ text := some (("a").data) }, {},
   { text := some (("b").data), timestamp := some 3 }]

/-- Rendering lemma for `toFixed1`: once the rounded value is known, the
rendering is a concrete string computation. -/
theorem toFixed1_of_floor (q : ℚ) (n : ℕ) (h : ⌊q * 10 + 1 / 2⌋ = (n : ℤ)) :
    toFixed1 q = natToStr (n / 10) ++ '.' :: natToStr (n % 10) := by
  simp only [toFixed1, h, Int.toNat_natCast]

/-- Substring containment agrees with the infix relation. -/
theorem strContains_iff (s sub : Str) : strContains s sub = true ↔ sub <:+: s := by
  simp only [strContains, List.any_eq_true, List.mem_tails,
    List.isPrefixOf_iff_prefix, List.infix_iff_prefix_suffix]
  exact ⟨fun ⟨t, h1, h2⟩ => ⟨t, h2, h1⟩, fun ⟨t, h1, h2⟩ => ⟨t, h2, h1⟩⟩

/-- Dropping while a predicate holds keeps everything from the first
failing element on. -/
theorem dropWhile_append_cons {α : Type} (p : α → Bool) :
    ∀ (A : List α) (c : α) (B : List α), p c = false →
      ∃ Y, List.dropWhile p (A ++ c :: B) = Y ++ c :: B
  | [], c, B, hc => ⟨[], by simp [List.dropWhile_cons, hc]⟩
  | a :: A, c, B, hc => by
    rcases dropWhile_append_cons p A c B hc with ⟨Y, hY⟩
    by_cases ha : p a
    · exact ⟨Y, by simp [List.dropWhile_cons, ha, hY]⟩
    · exact ⟨a :: A, by simp [List.dropWhile_cons, ha]⟩

/-- Taking while a predicate holds collects exactly an all-true chunk up
to a failing element. -/
theorem takeWhile_append_all {α : Type} (p : α → Bool) :
    ∀ (A : List α) (c : α) (B : List α), A.all p = true → p c = false →
      List.takeWhile p (A ++ c :: B) = A
  | [], c, B, _, hc => by simp [List.takeWhile_cons, hc]
  | a :: A, c, B, hA, hc => by
    simp only [List.all_cons, Bool.and_eq_true] at hA
    simp [List.takeWhile_cons, hA.1, takeWhile_append_all p A c B hA.2 hc]

/-- Every emotion keyword is non-empty, free of separator characters,
and already lower-case. -/
theorem keyword_props :
    ∀ w ∈ emotionKeywords,
      w ≠ [] ∧ w.all (fun c => !(isSepChar c)) = true ∧ w.map Char.toLower = w := by
  decide

/-- The 16 prompt vocabulary words are all extraction keywords. -/
theorem promptVocab16_sub : ∀ w ∈ promptVocab16, w ∈ emotionKeywords := by
  decide

/-- Lower-casing and trimming a text that starts with a lower-case
keyword followed by a period leaves that head intact. -/
theorem lowerTrim_keyword_head (w rest : Str) (hw : w ∈ emotionKeywords) :
    ∃ tail, trimL (toLowerCaseL (w ++ '.' :: rest)) = w ++ '.' :: tail := by
  obtain ⟨hne, hsep, hlow⟩ := keyword_props w hw
  have hmap : toLowerCaseL (w ++ '.' :: rest) = w ++ '.' :: toLowerCaseL rest := by
    unfold toLowerCaseL
    rw [List.map_append, List.map_cons, hlow,
      show Char.toLower '.' = '.' from rfl]
  obtain ⟨c, w', hw'⟩ : ∃ c w', w = c :: w' := by
    cases w with
    | nil => exact absurd rfl hne
    | cons c w' => exact ⟨c, w', rfl⟩
  have hcsep : isSepChar c = false := by
    rw [hw'] at hsep
    simp only [List.all_cons, Bool.and_eq_true] at hsep
    simpa using hsep.1
  have hcws : isJsSpace c = false := by
    simp only [isSepChar, Bool.or_eq_false_iff] at hcsep
    exact hcsep.2
  have hdrop1 :
      List.dropWhile isJsSpace (w ++ '.' :: toLowerCaseL rest) =
        w ++ '.' :: toLowerCaseL rest := by
    rw [hw', List.cons_append, List.dropWhile_cons]
    simp [hcws]
  have hrev1 : (w ++ '.' :: toLowerCaseL rest).reverse =
      (toLowerCaseL rest).reverse ++ '.' :: w.reverse := by
    simp [List.reverse_append, List.reverse_cons, List.append_assoc]
  rcases dropWhile_append_cons isJsSpace
      (toLowerCaseL rest).reverse '.' w.reverse (by decide) with ⟨Y, hY⟩
  refine ⟨Y.reverse, ?_⟩
  rw [hmap]
  unfold trimL
  rw [hdrop1, hrev1, hY, List.reverse_append, List.reverse_cons,
    List.reverse_reverse, List.append_assoc, List.singleton_append]

/-- Strategy 1 of the extraction heuristic: a text that starts with a
keyword followed by a period extracts exactly that keyword. -/
theorem extractExpression_keyword_head (w rest : Str) (hw : w ∈ emotionKeywords) :
    extractExpression (w ++ '.' :: rest) = w := by
  obtain ⟨hne, hsep, hlow⟩ := keyword_props w hw
  obtain ⟨tail, hL⟩ := lowerTrim_keyword_head w rest hw
  have htake :
      (w ++ '.' :: tail).takeWhile (fun c => !(isSepChar c)) = w :=
    takeWhile_append_all _ w '.' tail hsep (by decide)
  have hcont : emotionKeywords.contains w = true := by simpa using hw
  simp only [extractExpression]
  rw [hL, htake, hcont]
  simp

/-- The extraction heuristic always returns one of the 22 keywords (the
fallback `"neutral"` is itself in the list). -/
theorem extractExpression_mem_keywords (t : Str) :
    extractExpression t ∈ emotionKeywords := by
  simp only [extractExpression]
  split
  · next h => simpa using h
  · split
    · next e he => exact List.mem_of_find?_eq_some he
    · split
      · next e he => exact List.mem_of_find?_eq_some he
      · decide

/-- When no keyword occurs in the lower-cased trimmed text, every
strategy falls through and the extraction returns `"neutral"`. -/
theorem extractExpression_no_keyword (t : Str)
    (h : ∀ w ∈ emotionKeywords,
      strContains (trimL (toLowerCaseL t)) w = false) :
    extractExpression t = neutralStr := by
  have hfw :
      emotionKeywords.contains
        ((trimL (toLowerCaseL t)).takeWhile (fun c => !(isSepChar c))) = false := by
    by_contra hcon
    have hct :
        emotionKeywords.contains
          ((trimL (toLowerCaseL t)).takeWhile (fun c => !(isSepChar c))) = true := by
      cases hb : emotionKeywords.contains
          ((trimL (toLowerCaseL t)).takeWhile (fun c => !(isSepChar c)))
      · exact absurd hb hcon
      · rfl
    have hmem :
        (trimL (toLowerCaseL t)).takeWhile (fun c => !(isSepChar c)) ∈
          emotionKeywords := by
      simpa using hct
    have hpre := List.takeWhile_prefix (l := trimL (toLowerCaseL t))
      (p := fun c => !(isSepChar c))
    have : strContains (trimL (toLowerCaseL t))
        ((trimL (toLowerCaseL t)).takeWhile (fun c => !(isSepChar c))) = true :=
      (strContains_iff _ _).mpr hpre.isInfix
    rw [h _ hmem] at this
    exact Bool.false_ne_true this
  have hfs :
      List.find? (fun e =>
          strContains ((trimL (toLowerCaseL t)).takeWhile (fun c => c != '.')) e)
        emotionKeywords = none := by
    rw [List.find?_eq_none]
    intro e he hcon
    have h1 : e <:+: (trimL (toLowerCaseL t)).takeWhile (fun c => c != '.') :=
      (strContains_iff _ _).mp hcon
    have h2 := List.takeWhile_prefix (l := trimL (toLowerCaseL t))
      (p := fun c => c != '.')
    have : strContains (trimL (toLowerCaseL t)) e = true :=
      (strContains_iff _ _).mpr (h1.trans h2.isInfix)
    rw [h _ he] at this
    exact Bool.false_ne_true this
  have hall :
      List.find? (fun e => strContains (trimL (toLowerCaseL t)) e)
        emotionKeywords = none := by
    rw [List.find?_eq_none]
    intro e he hcon
    rw [h _ he] at hcon
    exact Bool.false_ne_true hcon
  simp only [extractExpression]
  rw [hfw, hfs, hall]
  simp

/-- JavaScript `Math.max` bounds every argument from above. -/
theorem le_jsMax : ∀ (l : List ℚ) (a : ℚ), ∀ x ∈ a :: l, x ≤ jsMax a l := by
  intro l
  induction l with
  | nil =>
    intro a x hx
    simp only [List.mem_singleton] at hx
    simp [jsMax, hx]
  | cons b l ih =>
    intro a x hx
    have hstep : jsMax a (b :: l) = jsMax (max a b) l := rfl
    have htop : max a b ≤ jsMax (max a b) l :=
      ih (max a b) (max a b) (List.mem_cons_self _ _)
    rw [hstep]
    rcases List.mem_cons.mp hx with h1 | h2
    · calc x = a := h1
        _ ≤ max a b := le_max_left a b
        _ ≤ jsMax (max a b) l := htop
    · rcases List.mem_cons.mp h2 with h3 | h4
      · calc x = b := h3
          _ ≤ max a b := le_max_right a b
          _ ≤ jsMax (max a b) l := htop
      · exact ih (max a b) x (List.mem_cons_of_mem _ h4)

/-- JavaScript `Math.max` returns one of its arguments. -/
theorem jsMax_mem : ∀ (l : List ℚ) (a : ℚ), jsMax a l ∈ a :: l := by
  intro l
  induction l with
  | nil => intro a; simp [jsMax]
  | cons b l ih =>
    intro a
    have hstep : jsMax a (b :: l) = jsMax (max a b) l := rfl
    rw [hstep]
    rcases List.mem_cons.mp (ih (max a b)) with h | h
    · rw [h]
      rcases max_choice a b with hm | hm <;> simp [hm]
    · simp [h]

/-- JavaScript `Math.min` bounds every argument from below. -/
theorem jsMin_le : ∀ (l : List ℚ) (a : ℚ), ∀ x ∈ a :: l, jsMin a l ≤ x := by
  intro l
  induction l with
  | nil =>
    intro a x hx
    simp only [List.mem_singleton] at hx
    simp [jsMin, hx]
  | cons b l ih =>
    intro a x hx
    have hstep : jsMin a (b :: l) = jsMin (min a b) l := rfl
    have hbot : jsMin (min a b) l ≤ min a b :=
      ih (min a b) (min a b) (List.mem_cons_self _ _)
    rw [hstep]
    rcases List.mem_cons.mp hx with h1 | h2
    · calc jsMin (min a b) l ≤ min a b := hbot
        _ ≤ a := min_le_left a b
        _ = x := h1.symm
    · rcases List.mem_cons.mp h2 with h3 | h4
      · calc jsMin (min a b) l ≤ min a b := hbot
          _ ≤ b := min_le_right a b
          _ = x := h3.symm
      · exact ih (min a b) x (List.mem_cons_of_mem _ h4)

/-- JavaScript `Math.min` returns one of its arguments. -/
theorem jsMin_mem : ∀ (l : List ℚ) (a : ℚ), jsMin a l ∈ a :: l := by
  intro l
  induction l with
  | nil => intro a; simp [jsMin]
  | cons b l ih =>
    intro a
    have hstep : jsMin a (b :: l) = jsMin (min a b) l := rfl
    rw [hstep]
    rcases List.mem_cons.mp (ih (min a b)) with h | h
    · rw [h]
      rcases min_choice a b with hm | hm <;> simp [hm]
    · simp [h]

/-- Unfolded behaviour of the analysis loop on a list of object
elements: it never throws, makes one upstream call per element, and
produces one entry per element whose timestamp echoes that element
field `Time` (default 0). -/
theorem processAnalyze_objs (gem : ℕ → GeminiFetch) :
    ∀ (ms : List Metric) (i : ℕ),
      ∃ entries,
        processAnalyze gem i (ms.map JsElem.obj) = (.ok entries, ms.length) ∧
        entries.length = ms.length ∧
        ∀ j, j < ms.length →
          (entries.getD j dfltEntry).timestamp = (ms.getD j dfltMetric).Time.getD 0 := by
  intro ms
  induction ms with
  | nil =>
    intro i
    exact ⟨[], rfl, rfl, fun j hj => absurd hj (Nat.not_lt_zero j)⟩
  | cons m ms ih =>
    intro i
    obtain ⟨es, he, hlen, hts⟩ := ih (i + 1)
    refine ⟨(match analyzeWithGemini (gem i) with
      | .err msg =>
        AnalysisEntry.failure msg (m.Time.getD 0) (m.Pulse.getD 0) (m.Breath.getD 0)
      | .ok a ex =>
        AnalysisEntry.success a ex (m.Time.getD 0) (m.Pulse.getD 0) (m.Breath.getD 0)) :: es,
      ?_, ?_, ?_⟩
    · simp only [List.map_cons, processAnalyze, elemFields, he]
      cases analyzeWithGemini (gem i) <;> simp [List.length_map]
    · simpa using hlen
    · intro j hj
      cases j with
      | zero =>
        cases analyzeWithGemini (gem i) <;> simp [AnalysisEntry.timestamp]
      | succ j =>
        simp only [List.length_cons] at hj
        simp only [List.getD_cons_succ]
        exact hts j (by omega)

/-- Unfolded behaviour of the batch speech loop: one result entry per
item, indexwise determined by the item text and the upstream outcome;
the indices with a network call are exactly the non-skipped ones. -/
theorem processBatch_spec (up : ℕ → TTSUpstream) :
    ∀ (items : List TTSItem) (i : ℕ),
      (processBatch up i items).1.length = items.length ∧
      (∀ j, j < items.length →
        (processBatch up i items).1.getD j dfltBatchEntry =
          (if falsyText (items.getD j dfltTTSItem).text then
            { error := some txtRequiredMsg,
              timestamp := (items.getD j dfltTTSItem).timestamp.getD 0 }
          else
            batchEntryFor (up (i + j)) ((items.getD j dfltTTSItem).timestamp.getD 0))) ∧
      (∀ n, n ∈ (processBatch up i items).2 ↔
        ∃ j, j < items.length ∧ n = i + j ∧
          falsyText ((items.getD j dfltTTSItem).text) = false) := by
  intro items
  induction items with
  | nil =>
    intro i
    refine ⟨rfl, fun j hj => absurd hj (Nat.not_lt_zero j), fun n => ?_⟩
    constructor
    · intro h
      exact absurd h (List.not_mem_nil n)
    · rintro ⟨j, hj, _, _⟩
      exact absurd hj (Nat.not_lt_zero j)
  | cons item items ih =>
    intro i
    obtain ⟨ihlen, ihget, ihcall⟩ := ih (i + 1)
    by_cases hf : falsyText item.text
    · have hstep : processBatch up i (item :: items) =
          ({ error := some txtRequiredMsg,
             timestamp := item.timestamp.getD 0 } :: (processBatch up (i + 1) items).1,
           (processBatch up (i + 1) items).2) := by
        simp [processBatch, hf]
      refine ⟨?_, ?_, ?_⟩
      · rw [hstep]
        simpa using ihlen
      · intro j hj
        rw [hstep]
        cases j with
        | zero => simp [hf]
        | succ j =>
          simp only [List.length_cons] at hj
          simp only [List.getD_cons_succ]
          rw [ihget j (by omega)]
          have harith : i + 1 + j = i + (j + 1) := by omega
          rw [harith]
      · intro n
        rw [hstep]
        simp only []
        rw [ihcall n]
        constructor
        · rintro ⟨j, hj, hn, hns⟩
          exact ⟨j + 1, by simpa using Nat.succ_lt_succ hj, by omega,
            by simpa using hns⟩
        · rintro ⟨j, hj, hn, hns⟩
          cases j with
          | zero =>
            rw [List.getD_cons_zero] at hns
            rw [hf] at hns
            exact absurd hns (by simp)
          | succ j =>
            simp only [List.length_cons] at hj
            rw [List.getD_cons_succ] at hns
            exact ⟨j, by omega, by omega, hns⟩
    · have hstep : processBatch up i (item :: items) =
          (batchEntryFor (up i) (item.timestamp.getD 0) :: (processBatch up (i + 1) items).1,
           i :: (processBatch up (i + 1) items).2) := by
        simp [processBatch, hf]
      refine ⟨?_, ?_, ?_⟩
      · rw [hstep]
        simpa using ihlen
      · intro j hj
        rw [hstep]
        cases j with
        | zero =>
          simp only [List.getD_cons_zero]
          rw [if_neg (by simp [hf])]
          rw [Nat.add_zero]
        | succ j =>
          simp only [List.length_cons] at hj
          simp only [List.getD_cons_succ]
          rw [ihget j (by omega)]
          have harith : i + 1 + j = i + (j + 1) := by omega
          rw [harith]
      · intro n
        rw [hstep]
        simp only [List.mem_cons]
        rw [ihcall n]
        constructor
        · rintro (rfl | ⟨j, hj, hn, hns⟩)
          · refine ⟨0, by simp, by omega, ?_⟩
            rw [List.getD_cons_zero]
            simpa using hf
          · exact ⟨j + 1, by simpa using Nat.succ_lt_succ hj, by omega,
              by simpa using hns⟩
        · rintro ⟨j, hj, hn, hns⟩
          cases j with
          | zero =>
            left
            omega
          | succ j =>
            right
            simp only [List.length_cons] at hj
            rw [List.getD_cons_succ] at hns
            exact ⟨j, by omega, by omega, hns⟩

/-- C10: for every byte array, decoding the base64 string produced by
the batch-speech audio encoder `arrayBufferToBase64` yields exactly the
original byte sequence: the encoder is a right inverse of base64
decoding. -/
theorem C10_base64_roundtrip (bytes : List ℕ) (h : ∀ b ∈ bytes, b < 256) :
    atobBytes (arrayBufferToBase64 bytes) = some bytes :=
  atobBytes_btoa bytes h

/-- Witness for C10 at a concrete byte array. -/
theorem C10_witness :
    atobBytes (arrayBufferToBase64 [0, 1, 77, 128, 255]) =
      some [0, 1, 77, 128, 255] :=
  C10_base64_roundtrip [0, 1, 77, 128, 255] (by decide)

/-- C6: for every summary request whose body is an empty array or not an
array, the handler returns the fixed placeholder summary and issues no
upstream call. -/
theorem C6_summary_placeholder (up : SummaryUpstream) :
    handleSummary up (.array []) = (.ok (.summaryOnly placeholderSummary), false) ∧
    handleSummary up .other = (.ok (.summaryOnly placeholderSummary), false) :=
  ⟨rfl, rfl⟩

/-- C8 (amended): for every analysis request whose body is not an array,
or is an empty array, the handler fails with the 400 invalid-format
error before making any upstream call.  (The original claim has a wider
precondition, any body that is not a non-empty array *of objects*, is
refuted by `C8_counterexample`: element objecthood is not validated.) -/
theorem C8_analyze_invalid_format (gem : ℕ → GeminiFetch) :
    handleAnalyze gem .other = (.badRequest invalidFormatMsg, 0) ∧
    handleAnalyze gem (.array []) = (.badRequest invalidFormatMsg, 0) :=
  ⟨rfl, rfl⟩

/-- C8 counterexample: a non-empty array whose single element is a
non-object primitive is not a non-empty array of objects, yet the
handler does not return the 400 invalid-format response, and it makes
one upstream call for that element. -/
theorem C8_counterexample :
    (handleAnalyze (fun _ => .badShape) (.array [JsElem.prim])).1 ≠
      AnalyzeResponse.badRequest invalidFormatMsg ∧
    (handleAnalyze (fun _ => .badShape) (.array [JsElem.prim])).2 = 1 := by
  decide

/-- C9: for every non-empty summary body whose last element has no
`Time` field, the unguarded `body[body.length - 1].Time.toFixed(0)` in
the prompt construction throws, so the route answers a 500 `{error}`
response, with no upstream call, whatever the other fields hold. -/
theorem C9_summary_missing_last_time (up : SummaryUpstream) (m : Metric)
    (ms : List Metric) (h : (lastOf m ms).Time = none) :
    appPostSummary up (.array (m :: ms)) =
      (.serverError typeErrorUndefinedMsg, false) := by
  simp [appPostSummary, handleSummary, h]

/-- Witness for C9: a single otherwise-valid sample with no `Time`. -/
theorem C9_witness :
    ((lastOf { Pulse := some 60 } []).Time = none) ∧
    appPostSummary (.ok []) (.array [{ Pulse := some 60 }]) =
      (.serverError typeErrorUndefinedMsg, false) :=
  ⟨rfl, C9_summary_missing_last_time (.ok []) { Pulse := some 60 } [] rfl⟩

/-- C7: a single-mode speech request with a missing text field gets the
400 error with no upstream call; and when the upstream speech service
answers a non-success status, the whole request fails as a 500 whose
error message contains the upstream status text. -/
theorem C7_single_tts (up : ℕ → TTSUpstream) (item : TTSItem) :
    (item.text = none →
      appPostTTS up (.single item) = (.ok (.badRequest txtRequiredMsg), [])) ∧
    (∀ st bt, falsyText item.text = false → up 0 = .httpErr st bt →
      ∃ pre post, appPostTTS up (.single item) =
        (.serverError (pre ++ st ++ post), [0])) := by
  constructor
  · intro h
    simp [appPostTTS, handleTTS, handleSingleTTS, falsyText, h]
  · intro st bt hft hup
    refine ⟨("ElevenLabs API error: ").data, (" - ").data ++ bt, ?_⟩
    simp only [appPostTTS, handleTTS, handleSingleTTS, hft, hup]
    simp [elevenLabsErrMsg, List.append_assoc]

/-- Witness for C7: a missing text, and an upstream 401 whose status
text reappears in the 500 message. -/
theorem C7_witness :
    (appPostTTS (fun _ => .ok []) (.single {}) =
      (.ok (.badRequest txtRequiredMsg), [])) ∧
    ∃ pre post,
      appPostTTS (fun _ => .httpErr (("Unauthorized").data) (("denied").data))
        (.single { text := some (("hi").data) }) =
        (.serverError (pre ++ (("Unauthorized").data) ++ post), [0]) :=
  ⟨(C7_single_tts (fun _ => .ok []) {}).1 rfl,
   (C7_single_tts (fun _ => .httpErr (("Unauthorized").data) (("denied").data))
      { text := some (("hi").data) }).2 _ _ (by decide) rfl⟩

/-- C1: for every non-empty input array of sample objects to the
analysis handler, the response is a 200 whose results array has exactly
the length of the input, results appear in input order, and the i-th
result timestamp equals the `Time` field of the i-th input (default 0 when
absent); a per-item upstream failure never removes or reorders an
element. -/
theorem C1_analysis_length_order_timestamps (gem : ℕ → GeminiFetch)
    (ms : List Metric) (hne : ms ≠ []) :
    ∃ entries,
      handleAnalyze gem (.array (ms.map JsElem.obj)) =
        (.results entries ms.length, ms.length) ∧
      entries.length = ms.length ∧
      ∀ i, i < ms.length →
        (entries.getD i dfltEntry).timestamp =
          (ms.getD i dfltMetric).Time.getD 0 := by
  obtain ⟨entries, he, hlen, hts⟩ := processAnalyze_objs gem ms 0
  cases ms with
  | nil => exact absurd rfl hne
  | cons m rest =>
    refine ⟨entries, ?_, hlen, hts⟩
    simp only [List.map_cons] at he ⊢
    simp only [handleAnalyze, he, List.length_cons, List.length_map]

/-- Witness for C1 at a one-sample input whose upstream call fails. -/
theorem C1_witness :
    ∃ entries,
      handleAnalyze (fun _ => .badShape)
        (.array ([({ Time := some 7 } : Metric)].map JsElem.obj)) =
        (.results entries 1, 1) ∧
      entries.length = 1 := by
  obtain ⟨entries, h1, h2, _⟩ :=
    C1_analysis_length_order_timestamps (fun _ => .badShape)
      [({ Time := some 7 } : Metric)] (by decide)
  exact ⟨entries, h1, h2⟩

/-- C2 (amended): given text beginning exactly with a vocabulary word
followed by a period, the extraction returns that word; and given text
whose lower-cased trimmed form contains no entry of the 22-keyword
extraction list anywhere, the extraction returns `"neutral"`.  (The
original claim stated the second half over the 16-word prompt
vocabulary; `C2_counterexample` refutes that version.) -/
theorem C2_extract_head_and_neutral :
    (∀ w rest, w ∈ promptVocab16 → extractExpression (w ++ '.' :: rest) = w) ∧
    (∀ t, (∀ w ∈ emotionKeywords,
        strContains (trimL (toLowerCaseL t)) w = false) →
      extractExpression t = neutralStr) :=
  ⟨fun w rest hw => extractExpression_keyword_head w rest (promptVocab16_sub w hw),
   fun t h => extractExpression_no_keyword t h⟩

/-- C2 counterexample: the text "scared" contains no word of the
16-word prompt vocabulary, yet extraction returns "scared", not
"neutral". -/
theorem C2_counterexample :
    promptVocab16.all
      (fun w => !(strContains (trimL (toLowerCaseL (("scared").data))) w)) = true ∧
    extractExpression (("scared").data) = ("scared").data ∧
    ("scared").data ≠ neutralStr := by
  decide

/-- Witness for C2: the head strategy on "happy. ok" and the neutral
fallback on keyword-free text. -/
theorem C2_witness :
    extractExpression (("happy. ok").data) = ("happy").data ∧
    extractExpression (("qqq").data) = neutralStr := by
  constructor
  · have hs : (("happy. ok").data : Str) =
        ("happy").data ++ '.' :: (" ok").data := by decide
    rw [hs]
    exact C2_extract_head_and_neutral.1 (("happy").data) ((" ok").data) (by decide)
  · exact C2_extract_head_and_neutral.2 _ (by decide)

/-- C3 (amended): for every input text, the extraction returns a label
from the fixed 22-entry keyword list of the code (the 16 prompt words
plus surprise, disappointed, scared, afraid, cheerful and joyful),
applying the three fallback strategies in order over that list.  (The
original claim said the closed vocabulary has exactly the 16 prompt
words; `C3_counterexample` refutes that.) -/
theorem C3_extract_in_keyword_list (t : Str) :
    extractExpression t ∈ emotionKeywords :=
  extractExpression_mem_keywords t

/-- C3 counterexample: on the text "cheerful" the extraction returns
"cheerful", which is not one of the 16 prompt vocabulary words. -/
theorem C3_counterexample :
    extractExpression (("cheerful").data) = ("cheerful").data ∧
    ("cheerful").data ∉ promptVocab16 := by
  decide

/-- C4: in a non-empty batch speech request where item k misses its text
and every other item is valid with a successful upstream call, the
result at index k is the error entry (made with no network call for
that index), every other index holds a base64 audio entry, order is
preserved, and both the result length and `totalProcessed` equal the
input length. -/
theorem C4_batch_missing_text (up : ℕ → TTSUpstream) (audio : ℕ → List ℕ)
    (items : List TTSItem) (k : ℕ) (hk : k < items.length)
    (hmiss : (items.getD k dfltTTSItem).text = none)
    (hvalid : ∀ j, j < items.length → j ≠ k →
      falsyText ((items.getD j dfltTTSItem).text) = false)
    (hok : ∀ j, up j = .ok (audio j)) :
    ∃ results calls,
      handleTTS up (.array items) =
        (.ok (.batch results items.length), calls) ∧
      results.length = items.length ∧
      results.getD k dfltBatchEntry =
        { error := some txtRequiredMsg,
          timestamp := (items.getD k dfltTTSItem).timestamp.getD 0 } ∧
      k ∉ calls ∧
      (∀ j, j < items.length → j ≠ k →
        results.getD j dfltBatchEntry =
          { audio := some (arrayBufferToBase64 (audio j)),
            timestamp := (items.getD j dfltTTSItem).timestamp.getD 0,
            contentType := some audioMpeg }) := by
  obtain ⟨hlen, hget, hcall⟩ := processBatch_spec up items 0
  have hne : ¬(items.length = 0) := by omega
  refine ⟨(processBatch up 0 items).1, (processBatch up 0 items).2,
    ?_, hlen, ?_, ?_, ?_⟩
  · simp only [handleTTS, handleBatchTTS, if_neg hne]
  · rw [hget k hk, if_pos (by rw [hmiss]; rfl)]
  · intro hkc
    obtain ⟨j, hj, hkj, hns⟩ := (hcall k).mp hkc
    have hjk : j = k := by omega
    rw [hjk, hmiss] at hns
    exact absurd hns (by simp [falsyText])
  · intro j hj hjk
    have hf := hvalid j hj hjk
    rw [hget j hj, if_neg (by rw [hf]; simp), Nat.zero_add, hok j]
    rfl

/-- Witness for C4 on `sampleBatchItems` with index 1 missing text. -/
theorem C4_witness :
    ∃ results calls,
      handleTTS (fun j => .ok [j]) (.array sampleBatchItems) =
        (.ok (.batch results sampleBatchItems.length), calls) ∧
      results.length = sampleBatchItems.length ∧
      results.getD 1 dfltBatchEntry =
        { error := some txtRequiredMsg,
          timestamp := (sampleBatchItems.getD 1 dfltTTSItem).timestamp.getD 0 } ∧
      1 ∉ calls := by
  obtain ⟨results, calls, h1, h2, h3, h4, _⟩ :=
    C4_batch_missing_text (fun j => .ok [j]) (fun j => [j]) sampleBatchItems 1
      (by decide) (by decide) (by decide) (fun j => rfl)
  exact ⟨results, calls, h1, h2, h3, h4⟩

/-- C5: for every non-empty summary body whose last sample carries a
`Time` (so the prompt builds) and whose upstream call succeeds, the
returned statistics are the one-decimal rendering of the mean, and the
maximum and minimum, of the pulse values with a missing pulse read as
0; in particular pulses [60, 80, 100] yield avgHeartRate "80.0",
maxHeartRate 100 and minHeartRate 60. -/
theorem C5_summary_statistics :
    (∀ (text : Str) (m : Metric) (ms : List Metric) (t : ℚ),
      (lastOf m ms).Time = some t →
      ∃ mx mn,
        handleSummary (.ok text) (.array (m :: ms)) =
          (.ok (.full text (m :: ms).length t
            (toFixed1 (((m :: ms).map (fun x => x.Pulse.getD 0)).sum /
              (((m :: ms).length : ℕ) : ℚ)))
            mx mn), true) ∧
        mx ∈ (m :: ms).map (fun x => x.Pulse.getD 0) ∧
        mn ∈ (m :: ms).map (fun x => x.Pulse.getD 0) ∧
        (∀ p ∈ (m :: ms).map (fun x => x.Pulse.getD 0), mn ≤ p ∧ p ≤ mx)) ∧
    handleSummary (.ok []) (.array
        [{ Pulse := some 60, Time := some 1 },
         { Pulse := some 80, Time := some 2 },
         { Pulse := some 100, Time := some 3 }]) =
      (.ok (.full [] 3 3 (("80.0").data) 100 60), true) := by
  constructor
  · intro text m ms t h
    refine ⟨jsMax (m.Pulse.getD 0) (ms.map (fun x => x.Pulse.getD 0)),
            jsMin (m.Pulse.getD 0) (ms.map (fun x => x.Pulse.getD 0)),
            ?_, ?_, ?_, ?_⟩
    · simp only [handleSummary, h]
    · rw [List.map_cons]
      exact jsMax_mem _ _
    · rw [List.map_cons]
      exact jsMin_mem _ _
    · intro p hp
      rw [List.map_cons] at hp
      exact ⟨jsMin_le _ _ p hp, le_jsMax _ _ p hp⟩
  · have hfix : toFixed1 80 = ("80.0").data := by
      rw [toFixed1_of_floor 80 800 (by norm_num)]
      decide
    norm_num [handleSummary, lastOf, jsMax, jsMin, hfix]

/-- Witness for C5: the pulses [60, 80, 100] of the claim, with
timestamps 1, 2, 3. -/
theorem C5_witness :
    ((lastOf { Pulse := some 60, Time := some 1 }
        [{ Pulse := some 80, Time := some 2 },
         { Pulse := some 100, Time := some 3 }]).Time = some 3) ∧
    handleSummary (.ok []) (.array
        [{ Pulse := some 60, Time := some 1 },
         { Pulse := some 80, Time := some 2 },
         { Pulse := some 100, Time := some 3 }]) =
      (.ok (.full [] 3 3 (("80.0").data) 100 60), true) :=
  ⟨rfl, C5_summary_statistics.2⟩
